import Mathlib

/-!
Verification development for the retroarch-asset-server repository
(`main.go`).  The Go program serves three categories of emulator assets
over HTTP: each category is either backed by a local directory tree
(wrapped in a virtual filesystem that synthesizes `.index` /
`.index-dirs` directory listings) or reverse-proxied to
`http://buildbot.libretro.com/assets/`.

The shallow embedding below translates the relevant Go code into pure
Lean functions.  Filesystem side effects (`http.Dir.Open` + `Readdir`,
`os.Stat`, ordinary file opening) are modelled by a `Host` record of
oracle functions describing the state of the host filesystem during the
request; `fileSystem.Open` is then a pure function of the `Host` and the
request path, mirroring `func (filesystem *fileSystem) Open` in
`main.go` statement by statement.
-/

namespace RetroArch

/-- File type of a directory entry, as classified by the Go code from
`fs.FileMode`: `info.Mode().Type() == fs.ModeSymlink` (symlink),
`info.IsDir()` (directory), `info.Mode().IsRegular()` (regular), and
everything else (sockets, FIFOs, devices, ...) collapsed to `other`. -/
inductive FileType where
  | regular
  | directory
  | symlink
  | other
deriving DecidableEq, Repr

/-- Embedding of the part of Go `fs.FileInfo` that the listing code
reads: `Name()` and the mode type. -/
structure FileInfo where
  name : String
  type : FileType
deriving DecidableEq, Repr

/-- Models Go `info.IsDir()`. -/
def FileInfo.IsDir (info : FileInfo) : Bool :=
  info.type == FileType.directory

/-- Models Go `info.Mode().IsRegular()`. -/
def FileInfo.IsRegular (info : FileInfo) : Bool :=
  info.type == FileType.regular

/-- Accumulator pass of Go `path.Clean` (lexical path cleaning): drops
empty and `.` components, resolves `..` against the accumulated output,
keeping leading `..`s only for non-rooted paths. -/
def cleanComponents (rooted : Bool) : List String → List String → List String
  | acc, [] => acc.reverse
  | acc, c :: rest =>
    if c = "" ∨ c = "." then
      cleanComponents rooted acc rest
    else if c = ".." then
      match acc with
      | [] =>
        if rooted then cleanComponents rooted [] rest
        else cleanComponents rooted [".."] rest
      | a :: tl =>
        if a = ".." then cleanComponents rooted (c :: a :: tl) rest
        else cleanComponents rooted tl rest
    else
      cleanComponents rooted (c :: acc) rest

/-- Character-level split on a separator character (Go
`strings.Split(s, sep)` for a one-character separator). -/
def splitChar (sep : Char) : List Char → List String
  | [] => [""]
  | c :: rest =>
    match splitChar sep rest with
    | [] => [""]
    | s :: tl =>
      if c == sep then "" :: s :: tl
      else String.mk (c :: s.toList) :: tl

/-- Split on slashes (Go `strings.Split(s, "/")`). -/
def splitSlash : List Char → List String :=
  splitChar '/'

/-- Joins strings with slashes (Go `strings.Join(elems, "/")`). -/
def joinSlash : List String → String
  | [] => ""
  | [s] => s
  | s :: rest => s ++ "/" ++ joinSlash rest

/-- Tests whether a path begins with a slash (Go `path[0] == '/'`,
Go `strings.HasPrefix(b, "/")`). -/
def isRooted (p : String) : Bool :=
  match p.data with
  | c :: _ => c == '/'
  | [] => false

/-- Models Go `path.Clean` (slash-separated, purely lexical). -/
def pathClean (p : String) : String :=
  if p = "" then "."
  else
    let rooted := isRooted p
    let joined := joinSlash (cleanComponents rooted [] (splitSlash p.toList))
    if rooted then "/" ++ joined
    else if joined = "" then "." else joined

/-- Models Go `path.Join`: joins the elements starting from the first
non-empty one with slashes, then cleans the result. -/
def pathJoin (elems : List String) : String :=
  match elems.dropWhile (fun e => e = "") with
  | [] => ""
  | es => pathClean (joinSlash es)

/-- Index of the last `/` in a character list, if any (helper for
Go `strings.LastIndex(path, "/")`). -/
def lastSlashPos : List Char → Option Nat
  | [] => none
  | c :: rest =>
    match lastSlashPos rest with
    | some i => some (i + 1)
    | none => if c = '/' then some 0 else none

/-- Models Go `path.Split`: splits after the final slash, returning
`(path[0:i+1], path[i+1:])` where `i` is the last index of `/`
(`(\x22\x22, path)` when there is no slash).  All request paths involved
are ASCII, so character positions coincide with Go's byte positions. -/
def pathSplit (p : String) : String × String :=
  match lastSlashPos p.toList with
  | none => ("", p)
  | some i => (p.take (i + 1), p.drop (i + 1))

/-- Opaque handle for a real file returned by `http.Dir.Open`. -/
structure RealFile where
  path : String
deriving DecidableEq, Repr

/-- Oracle describing the host filesystem state seen by one request.
`dirRead d` models `filesystem.Source.Open(d)` followed by
`Readdir(0)` (either Go call failing is modelled as an error result);
`stat p` models `os.Stat(p)` (following symlinks; errors for dangling
links); `openFile n` models `filesystem.Source.Open(n)` on an ordinary
(non-reserved) name, yielding a real file handle. -/
structure Host where
  dirRead : String → Except String (List FileInfo)
  stat : String → Except String FileInfo
  openFile : String → Except String RealFile

/-- Embedding of the Go `inMemoryFile` struct: a `strings.Reader`
(carrying the backing string and the reader offset; `strings.NewReader`
starts the offset at 0) plus the synthetic file name. -/
structure inMemoryFile where
  content : String
  name : String
  pos : Nat
deriving DecidableEq, Repr

/-- Models `inMemoryFile{strings.NewReader(s), n}`. -/
def newInMemoryFile (s : String) (n : String) : inMemoryFile :=
  { content := s, name := n, pos := 0 }

/-- Result of `fileSystem.Open`: either a synthetic in-memory listing
file or a real file handle delegated to the underlying `http.Dir`. -/
inductive OpenedFile where
  | inMemory (f : inMemoryFile)
  | real (f : RealFile)
deriving DecidableEq, Repr

/-- Symlink-resolution step of both listing loops in
`fileSystem.Open`: if the enumerated entry is a symlink, replace its
info by `os.Stat(path.Join(statDir..., info.Name()))`, propagating the
stat error; otherwise keep the entry as enumerated. -/
def resolveEntry (host : Host) (statDir : List String) (info : FileInfo) :
    Except String FileInfo :=
  if info.type == FileType.symlink then
    host.stat (pathJoin (statDir ++ [info.name]))
  else
    Except.ok info

/-- Listing loop of `fileSystem.Open` (used for both `.index-dirs`,
with `keep = IsDir`, and `.index`, with `keep = IsRegular`): resolve
each enumerated entry, abort on the first resolution error, and emit
`info.Name()` followed by a newline (`fmt.Fprintln`) for each resolved
entry satisfying `keep`, in enumeration order. -/
def synthListing (host : Host) (statDir : List String) (keep : FileInfo → Bool) :
    List FileInfo → Except String String
  | [] => Except.ok ""
  | info :: rest =>
    match resolveEntry host statDir info with
    | Except.error e => Except.error e
    | Except.ok rinfo =>
      match synthListing host statDir keep rest with
      | Except.error e => Except.error e
      | Except.ok tail =>
        Except.ok ((if keep rinfo then rinfo.name ++ "\n" else "") ++ tail)

/-- Embedding of the Go `fileSystem` struct.  `Source` is the
`http.Dir`, i.e. the string path of the local root directory. -/
structure fileSystem where
  Indexed : Bool
  SubDirs : Bool
  Root : String
  Source : String
deriving DecidableEq, Repr

/-- Embedding of `func (filesystem *fileSystem) Open(name string)`.
The request path is first stripped to `name[len(Root)-1:]` (keeping the
leading slash); when `Indexed`, the reserved names `/.index-dirs`
(only when `SubDirs`) and a basename of `.index` are intercepted and
answered with a synthetic in-memory listing; every other name is
delegated to `Source.Open`.  All paths involved are ASCII, so
`String.drop` of a character count coincides with Go's byte slicing. -/
def fileSystem.Open (filesystem : fileSystem) (host : Host) (name0 : String) :
    Except String OpenedFile :=
  let name := name0.drop (filesystem.Root.length - 1)
  if filesystem.Indexed then
    if filesystem.SubDirs && name == "/.index-dirs" then
      match host.dirRead "." with
      | Except.error err => Except.error err
      | Except.ok files =>
        match synthListing host [filesystem.Source] FileInfo.IsDir files with
        | Except.error err => Except.error err
        | Except.ok result =>
          Except.ok (OpenedFile.inMemory (newInMemoryFile result ".index-dirs"))
    else
      let db := pathSplit name
      if db.2 == ".index" then
        match host.dirRead db.1 with
        | Except.error err => Except.error err
        | Except.ok files =>
          match synthListing host [filesystem.Source, db.1] FileInfo.IsRegular files with
          | Except.error err => Except.error err
          | Except.ok result =>
            Except.ok (OpenedFile.inMemory (newInMemoryFile result ".index"))
      else
        (host.openFile name).map OpenedFile.real
  else
    (host.openFile name).map OpenedFile.real

/-! ### Declarative characterizations of the synthetic listings

These definitions restate, in filter/map form, what the listing loops
compute; the theorems below connect them to `synthListing`. -/

/-- Type of an enumerated entry after symlink resolution: `none` when
the entry is a dangling symlink (its `os.Stat` fails). -/
def resolvedType (host : Host) (statDir : List String) (info : FileInfo) :
    Option FileType :=
  match resolveEntry host statDir info with
  | Except.ok rinfo => some rinfo.type
  | Except.error _ => none

/-- Names of the enumerated entries whose resolved type is `t`, in
enumeration order. -/
def namesOfType (host : Host) (statDir : List String) (t : FileType)
    (entries : List FileInfo) : List String :=
  entries.filterMap fun info =>
    if resolvedType host statDir info = some t then some info.name else none

/-- Names of the enumerated entries whose resolved info satisfies
`keep`, in enumeration order. -/
def namesKept (host : Host) (statDir : List String) (keep : FileInfo → Bool)
    (entries : List FileInfo) : List String :=
  entries.filterMap fun info =>
    match resolveEntry host statDir info with
    | Except.ok rinfo => if keep rinfo then some info.name else none
    | Except.error _ => none

/-- Concatenates names, terminating each with a newline (the shape
produced by the `fmt.Fprintln` loop). -/
def joinLines : List String → String
  | [] => ""
  | n :: rest => n ++ "\n" ++ joinLines rest

/-- Lines of a listing body: the segments between newline characters. -/
def listingLines (s : String) : List String :=
  splitChar '\n' s.toList

/-! ### Reverse proxy (`newReverseProxy`, `retroarchHost`) -/

/-- Parsed URL, as read by the proxy code: `url.Parse` result restricted
to the fields `NewSingleHostReverseProxy` and `newReverseProxy` use. -/
structure URL where
  scheme : String
  host : String
  path : String
deriving DecidableEq, Repr

/-- The constant `retroarchHost` from `main.go`. -/
def retroarchHost : String :=
  "http://buildbot.libretro.com/assets/"

/-- Models `url.Parse(retroarchHost)`: scheme `http`, host
`buildbot.libretro.com`, path `/assets/`, no query. -/
def proxyURL : URL :=
  { scheme := "http", host := "buildbot.libretro.com", path := "/assets/" }

/-- Inbound HTTP request, restricted to the fields the director
rewrites: the request URL and the Host header (`req.Host`). -/
structure Request where
  url : URL
  host : String
deriving DecidableEq, Repr

/-- Tests whether a string ends with a slash (Go
`strings.HasSuffix(a, "/")`). -/
def hasSlashSuffix (a : String) : Bool :=
  a.toList.getLast? == some '/'

/-- Models `singleJoiningSlash` from `net/http/httputil` (the path
join performed by `NewSingleHostReverseProxy`). -/
def singleJoiningSlash (a b : String) : String :=
  let aslash := hasSlashSuffix a
  let bslash := isRooted b
  if aslash && bslash then a ++ String.mk b.toList.tail
  else if !aslash && !bslash then a ++ "/" ++ b
  else a ++ b

/-- Models the `Director` installed by
`httputil.NewSingleHostReverseProxy(target)` for a target without a
query string: rewrites the outbound URL scheme and host to the
target's and joins the target path with the inbound path.  The stdlib
director does not touch `req.Host`. -/
def singleHostDirector (target : URL) (req : Request) : Request :=
  { req with
    url := { scheme := target.scheme, host := target.host,
             path := singleJoiningSlash target.path req.url.path } }

/-- Embedding of the `Director` built by `newReverseProxy(target)`:
the stdlib single-host director followed by `req.Host = target.Host`. -/
def newReverseProxyDirector (target : URL) (req : Request) : Request :=
  let r := singleHostDirector target req
  { r with host := target.host }

/-! ### Asset router (`newServer`) and serve command -/

/-- Handler mounted on the request multiplexer: either
`http.FileServer` over a `fileSystem`, or the reverse proxy built by
`newReverseProxy(proxyURL)`. -/
inductive Handler where
  | fileServer (filesystem : fileSystem)
  | reverseProxy (target : URL)
deriving DecidableEq, Repr

/-- Embedding of the `http.Server` built by `newServer`: the listen
address and the multiplexer contents (prefix/handler pairs, in
`Handle`-registration order). -/
structure Server where
  addr : String
  handler : List (String × Handler)
deriving DecidableEq, Repr

/-- Embedding of `func newServer(listen, frontend, system, rom string)`:
for each category, mounts a file server over a `fileSystem` with the
fixed `(Indexed, SubDirs, Root)` policy when the corresponding path is
non-empty, and the reverse proxy to `proxyURL` otherwise. -/
def newServer (listen frontend system rom : String) : Server :=
  let frontendHandler :=
    if frontend = "" then Handler.reverseProxy proxyURL
    else Handler.fileServer
      { Indexed := false, SubDirs := false, Root := "/frontend/", Source := frontend }
  let systemHandler :=
    if system = "" then Handler.reverseProxy proxyURL
    else Handler.fileServer
      { Indexed := true, SubDirs := false, Root := "/system/", Source := system }
  let romHandler :=
    if rom = "" then Handler.reverseProxy proxyURL
    else Handler.fileServer
      { Indexed := true, SubDirs := true, Root := "/cores/", Source := rom }
  { addr := listen
  , handler :=
      [ ("/frontend/", frontendHandler)
      , ("/system/", systemHandler)
      , ("/cores/", romHandler) ] }

/-- Error value returned by `server.ListenAndServe()`, as inspected by
`serveCommand.Run`: either the sentinel `http.ErrServerClosed` or some
other (bind/accept) error. -/
inductive GoError where
  | serverClosed
  | other (msg : String)
deriving DecidableEq, Repr

/-- Embedding of the tail of `serveCommand.Run` (the error mapping
after `server.ListenAndServe()` returns): the sentinel
`http.ErrServerClosed` is mapped to a `nil` return (`none`), every
other error is returned unchanged. -/
def serveRunReturn (err : GoError) : Option GoError :=
  if err = GoError.serverClosed then none else some err

/-! ### Methods of `inMemoryFile` -/

/-- Models `func (f inMemoryFile) Close() error`. -/
def inMemoryFile.Close (_f : inMemoryFile) : Option String :=
  none

/-- Models `func (f inMemoryFile) Readdir(count int)`. -/
def inMemoryFile.Readdir (_f : inMemoryFile) (_count : Int) :
    List FileInfo × Option String :=
  ([], none)

/-- Models `func (f inMemoryFile) Mode() fs.FileMode` (the permission
bits of the returned mode, as a natural number). -/
def inMemoryFile.Mode (_f : inMemoryFile) : Nat :=
  0o444

/-- Models `func (f inMemoryFile) ModTime() time.Time`: returns
`time.Now()`, modelled by passing the current clock explicitly. -/
def inMemoryFile.ModTime (_f : inMemoryFile) (now : Nat) : Nat :=
  now

/-- Models `func (f inMemoryFile) IsDir() bool`. -/
def inMemoryFile.IsDir (_f : inMemoryFile) : Bool :=
  false

/-- Models `func (f inMemoryFile) Stat() (fs.FileInfo, error)`: the
file is its own `FileInfo`. -/
def inMemoryFile.Stat (f : inMemoryFile) : inMemoryFile × Option String :=
  (f, none)

/-- Models `Seek(0, io.SeekStart)` on the embedded `strings.Reader`. -/
def inMemoryFile.seekStart (f : inMemoryFile) : inMemoryFile :=
  { f with pos := 0 }

/-- Models `io.ReadAll` on the embedded `strings.Reader`: returns the
bytes from the current offset to the end, leaving the offset there. -/
def inMemoryFile.readAll (f : inMemoryFile) : String × inMemoryFile :=
  (String.mk (f.content.data.drop f.pos), { f with pos := f.content.length })

/-! ### Concrete filesystem fixtures used by the closed instantiations -/

/-- System-category filesystem (policy of `newServer`) over local root
`/data`. -/
def fsSystemW : fileSystem :=
  { Indexed := true, SubDirs := false, Root := "/system/", Source := "/data" }

/-- Rom-category filesystem (policy of `newServer`) over local root
`/roms`. -/
def fsRomW : fileSystem :=
  { Indexed := true, SubDirs := true, Root := "/cores/", Source := "/roms" }

/-- Enumeration of `/data`: a regular file `a`, a directory `c`, and a
symlink `s` whose target is a regular file. -/
def entsW1 : List FileInfo :=
  [⟨"a", FileType.regular⟩, ⟨"c", FileType.directory⟩, ⟨"s", FileType.symlink⟩]

/-- Host state enumerating `entsW1` at the root of `/data`. -/
def hostW1 : Host :=
  { dirRead := fun d =>
      if d = "/" then Except.ok entsW1
      else Except.error "open: no such directory"
  , stat := fun p =>
      if p = "/data/s" then Except.ok ⟨"s", FileType.regular⟩
      else Except.error "stat: no such file"
  , openFile := fun _ => Except.error "open: no such file" }

/-- Enumeration of `/roms`: directories `snes` and `genesis`, a regular
file `f`, and a symlink `ln` whose target is a directory. -/
def entsW2 : List FileInfo :=
  [⟨"snes", FileType.directory⟩, ⟨"genesis", FileType.directory⟩,
    ⟨"f", FileType.regular⟩, ⟨"ln", FileType.symlink⟩]

/-- Host state enumerating `entsW2` at the root of `/roms`. -/
def hostW2 : Host :=
  { dirRead := fun d =>
      if d = "." then Except.ok entsW2
      else Except.error "open: no such directory"
  , stat := fun p =>
      if p = "/roms/ln" then Except.ok ⟨"ln", FileType.directory⟩
      else Except.error "stat: no such file"
  , openFile := fun _ => Except.error "open: no such file" }

/-- Host state: both the category root and its root directory contain a
single dangling symlink `dang` (every `os.Stat` fails). -/
def hostW3 : Host :=
  { dirRead := fun d =>
      if d = "." ∨ d = "/" then Except.ok [⟨"dang", FileType.symlink⟩]
      else Except.error "open: no such directory"
  , stat := fun _ => Except.error "stat: dangling symlink"
  , openFile := fun _ => Except.error "open: no such file" }

/-- Host state: every directory enumeration fails (unreadable
directory). -/
def hostW4 : Host :=
  { dirRead := fun _ => Except.error "open: permission denied"
  , stat := fun _ => Except.error "stat: no such file"
  , openFile := fun _ => Except.error "open: no such file" }

/-- Variant of `hostW1` that agrees with it on the enumeration of `/`
and on the stat of `/data/s`, but differs everywhere else (other
directories enumerate empty instead of failing; ordinary opens
succeed). -/
def hostW1b : Host :=
  { dirRead := fun d =>
      if d = "/" then Except.ok entsW1
      else Except.ok []
  , stat := fun p =>
      if p = "/data/s" then Except.ok ⟨"s", FileType.regular⟩
      else Except.error "stat: other"
  , openFile := fun n => Except.ok ⟨n⟩ }

/-- Enumeration of `/data/sub`: regular files actually named `.index`
and `b` (a reserved listing name present on disk as a real file). -/
def entsC6 : List FileInfo :=
  [⟨".index", FileType.regular⟩, ⟨"b", FileType.regular⟩]

/-- Host state enumerating `entsC6` at `/sub/` under `/data`. -/
def hostC6 : Host :=
  { dirRead := fun d =>
      if d = "/sub/" then Except.ok entsC6
      else Except.error "open: no such directory"
  , stat := fun _ => Except.error "stat: no such file"
  , openFile := fun _ => Except.error "open: no such file" }

/-- Enumeration of `/data`: a socket `sock`, a regular file `a` and a
directory `d`. -/
def entsW5a : List FileInfo :=
  [⟨"sock", FileType.other⟩, ⟨"a", FileType.regular⟩, ⟨"d", FileType.directory⟩]

/-- Enumeration of `/roms`: a FIFO `fifo`, a directory `sub` and a
regular file `f`. -/
def entsW5b : List FileInfo :=
  [⟨"fifo", FileType.other⟩, ⟨"sub", FileType.directory⟩, ⟨"f", FileType.regular⟩]

/-- Host state enumerating `entsW5a` at the root of `/data` and
`entsW5b` at the root of `/roms`. -/
def hostW5 : Host :=
  { dirRead := fun d =>
      if d = "/" then Except.ok entsW5a
      else if d = "." then Except.ok entsW5b
      else Except.error "open: no such directory"
  , stat := fun _ => Except.error "stat: no such file"
  , openFile := fun _ => Except.error "open: no such file" }

/-! ### Helper lemmas -/

/-- Strings with equal character data are equal. -/
theorem string_data_ext (a b : String) (h : a.data = b.data) : a = b := by
  cases a
  cases b
  exact congrArg String.mk h

/-- Rebuilding a string from its character data is the identity. -/
theorem string_mk_data (s : String) : String.mk s.data = s := by
  cases s
  rfl

/-- Appending the empty string on the left is the identity. -/
theorem empty_append_str (s : String) : "" ++ s = s := by
  apply string_data_ext
  show [] ++ s.data = s.data
  simp

/-- When every enumerated entry resolves successfully and resolution
preserves the entry name (as `os.Stat` does), the listing loop
succeeds and produces exactly the kept names, newline-terminated, in
enumeration order. -/
theorem synthListing_ok (host : Host) (statDir : List String)
    (keep : FileInfo → Bool) (entries : List FileInfo)
    (hres : ∀ info ∈ entries, ∃ rinfo,
      resolveEntry host statDir info = Except.ok rinfo ∧ rinfo.name = info.name) :
    synthListing host statDir keep entries =
      Except.ok (joinLines (namesKept host statDir keep entries)) := by
  induction entries with
  | nil => rfl
  | cons info rest ih =>
    obtain ⟨rinfo, hok, hnm⟩ := hres info (List.mem_cons_self info rest)
    have hrest := ih (fun i hi => hres i (List.mem_cons_of_mem _ hi))
    simp only [synthListing, hok, hrest, namesKept, List.filterMap_cons]
    by_cases hkeep : keep rinfo = true
    · simp only [hkeep, if_true, hnm, joinLines]
    · simp only [hkeep, if_false, Bool.not_eq_true] at *
      simp only [hkeep, Bool.false_eq_true, if_false, empty_append_str]

/-- The kept names for `keep = IsRegular` are exactly the names of
entries whose resolved type is `regular`. -/
theorem namesKept_isRegular (host : Host) (statDir : List String)
    (entries : List FileInfo) :
    namesKept host statDir FileInfo.IsRegular entries =
      namesOfType host statDir FileType.regular entries := by
  induction entries with
  | nil => rfl
  | cons info rest ih =>
    simp only [namesKept, namesOfType, List.filterMap_cons] at ih ⊢
    rw [ih]
    cases h : resolveEntry host statDir info with
    | error e => simp [resolvedType, h]
    | ok rinfo => simp [resolvedType, h, FileInfo.IsRegular]

/-- The kept names for `keep = IsDir` are exactly the names of entries
whose resolved type is `directory`. -/
theorem namesKept_isDir (host : Host) (statDir : List String)
    (entries : List FileInfo) :
    namesKept host statDir FileInfo.IsDir entries =
      namesOfType host statDir FileType.directory entries := by
  induction entries with
  | nil => rfl
  | cons info rest ih =>
    simp only [namesKept, namesOfType, List.filterMap_cons] at ih ⊢
    rw [ih]
    cases h : resolveEntry host statDir info with
    | error e => simp [resolvedType, h]
    | ok rinfo => simp [resolvedType, h, FileInfo.IsDir]

/-- If any enumerated entry fails to resolve, the listing loop
propagates an error. -/
theorem synthListing_error (host : Host) (statDir : List String)
    (keep : FileInfo → Bool) (entries : List FileInfo)
    (h : ∃ info ∈ entries, ∃ msg,
      resolveEntry host statDir info = Except.error msg) :
    ∃ msg, synthListing host statDir keep entries = Except.error msg := by
  induction entries with
  | nil => simp at h
  | cons info rest ih =>
    cases hr : resolveEntry host statDir info with
    | error e => exact ⟨e, by simp [synthListing, hr]⟩
    | ok rinfo =>
      obtain ⟨i, hi, msg, hmsg⟩ := h
      rcases List.mem_cons.mp hi with rfl | hi2
      · rw [hr] at hmsg
        cases hmsg
      · obtain ⟨msg2, hrec⟩ := ih ⟨i, hi2, msg, hmsg⟩
        exact ⟨msg2, by simp [synthListing, hr, hrec]⟩

/-- The listing loop reads the host only through the stats of the
symlink entries: two hosts agreeing there produce identical loop
results. -/
theorem synthListing_congr (h1 h2 : Host) (statDir : List String)
    (keep : FileInfo → Bool) (entries : List FileInfo)
    (hstat : ∀ info ∈ entries, info.type = FileType.symlink →
      h1.stat (pathJoin (statDir ++ [info.name])) =
        h2.stat (pathJoin (statDir ++ [info.name]))) :
    synthListing h1 statDir keep entries =
      synthListing h2 statDir keep entries := by
  induction entries with
  | nil => rfl
  | cons info rest ih =>
    have hre : resolveEntry h1 statDir info = resolveEntry h2 statDir info := by
      by_cases ht : info.type = FileType.symlink
      · simp [resolveEntry, beq_iff_eq, ht,
          hstat info (List.mem_cons_self info rest) ht]
      · simp [resolveEntry, beq_iff_eq, ht]
    have hrest := ih (fun i hi hsym => hstat i (List.mem_cons_of_mem _ hi) hsym)
    simp only [synthListing, hre, hrest]

/-- Every in-memory file returned by `Open` is freshly built over
`strings.NewReader`, so its reader offset is 0. -/
theorem Open_inMemory_pos (filesystem : fileSystem) (host : Host)
    (name0 : String) (f : inMemoryFile)
    (hopen : filesystem.Open host name0 = Except.ok (OpenedFile.inMemory f)) :
    f.pos = 0 := by
  simp only [fileSystem.Open] at hopen
  split at hopen
  · split at hopen
    · split at hopen
      · cases hopen
      · split at hopen
        · cases hopen
        · cases hopen
          rfl
    · split at hopen
      · split at hopen
        · cases hopen
        · split at hopen
          · cases hopen
          · cases hopen
            rfl
      · cases hof : host.openFile (name0.drop (filesystem.Root.length - 1)) with
        | error e =>
          rw [hof] at hopen
          simp [Except.map] at hopen
        | ok r =>
          rw [hof] at hopen
          simp [Except.map] at hopen
  · cases hof : host.openFile (name0.drop (filesystem.Root.length - 1)) with
    | error e =>
      rw [hof] at hopen
      simp [Except.map] at hopen
    | ok r =>
      rw [hof] at hopen
      simp [Except.map] at hopen

/-- On an indexed filesystem, a request whose stripped path has
basename `.index` takes the per-directory listing branch of `Open`. -/
theorem Open_index_branch (filesystem : fileSystem) (host : Host)
    (name0 dir : String)
    (hIdx : filesystem.Indexed = true)
    (hsplit : pathSplit (name0.drop (filesystem.Root.length - 1)) = (dir, ".index")) :
    filesystem.Open host name0 =
      (match host.dirRead dir with
       | Except.error err => Except.error err
       | Except.ok files =>
         match synthListing host [filesystem.Source, dir] FileInfo.IsRegular files with
         | Except.error err => Except.error err
         | Except.ok result =>
           Except.ok (OpenedFile.inMemory (newInMemoryFile result ".index"))) := by
  have hne : name0.drop (filesystem.Root.length - 1) ≠ "/.index-dirs" := by
    intro hcontra
    rw [hcontra] at hsplit
    have h2 : (pathSplit "/.index-dirs").2 = ".index" := by rw [hsplit]
    rw [show pathSplit "/.index-dirs" = ("/", ".index-dirs") from rfl] at h2
    exact absurd h2 (by decide)
  have hbeq : (name0.drop (filesystem.Root.length - 1) == "/.index-dirs") = false :=
    beq_eq_false_iff_ne.mpr hne
  simp only [fileSystem.Open, hIdx, hbeq, hsplit, Bool.and_false, Bool.false_eq_true,
    if_false, if_true, beq_self_eq_true]

/-- On an indexed filesystem with the subdir index enabled, the request
whose stripped path is `/.index-dirs` takes the root directory-listing
branch of `Open`. -/
theorem Open_indexDirs_branch (filesystem : fileSystem) (host : Host)
    (name0 : String)
    (hIdx : filesystem.Indexed = true)
    (hSub : filesystem.SubDirs = true)
    (hname : name0.drop (filesystem.Root.length - 1) = "/.index-dirs") :
    filesystem.Open host name0 =
      (match host.dirRead "." with
       | Except.error err => Except.error err
       | Except.ok files =>
         match synthListing host [filesystem.Source] FileInfo.IsDir files with
         | Except.error err => Except.error err
         | Except.ok result =>
           Except.ok (OpenedFile.inMemory (newInMemoryFile result ".index-dirs"))) := by
  simp only [fileSystem.Open, hIdx, hSub, hname, beq_self_eq_true, Bool.and_true,
    if_true]

/-! ### Claim theorems -/

/-- C1: for every indexed category (system, cores) in local mode and
every request whose stripped relative path has basename `.index`,
`Open` returns an in-memory stream containing exactly the names of the
entries of the containing directory that are regular files (after
resolving symbolic links), one name per line, newline-terminated, in
enumeration order; entries that are directories are excluded. -/
theorem open_index_lists_regular_files
    (filesystem : fileSystem) (host : Host) (name0 dir : String)
    (entries : List FileInfo)
    (hIdx : filesystem.Indexed = true)
    (hsplit : pathSplit (name0.drop (filesystem.Root.length - 1)) = (dir, ".index"))
    (hread : host.dirRead dir = Except.ok entries)
    (hres : ∀ info ∈ entries, ∃ rinfo,
      resolveEntry host [filesystem.Source, dir] info = Except.ok rinfo ∧
        rinfo.name = info.name) :
    filesystem.Open host name0 =
      Except.ok (OpenedFile.inMemory (newInMemoryFile
        (joinLines (namesOfType host [filesystem.Source, dir] FileType.regular entries))
        ".index")) := by
  rw [Open_index_branch filesystem host name0 dir hIdx hsplit]
  simp only [hread,
    synthListing_ok host [filesystem.Source, dir] FileInfo.IsRegular entries hres,
    namesKept_isRegular]

/-- C1 witness: the system category over `/data` answering
`/system/.index` when `/data` holds a regular file `a`, a directory
`c` and a symlink `s` to a regular file: the listing is `a`, `s`. -/
theorem open_index_lists_regular_files_witness :
    fsSystemW.Open hostW1 "/system/.index" =
      Except.ok (OpenedFile.inMemory (newInMemoryFile "a\ns\n" ".index")) := by
  have h := open_index_lists_regular_files fsSystemW hostW1 "/system/.index" "/"
    [⟨"a", FileType.regular⟩, ⟨"c", FileType.directory⟩, ⟨"s", FileType.symlink⟩]
    rfl rfl rfl ?_
  · exact h.trans (by rfl)
  · intro info hi
    fin_cases hi
    · exact ⟨⟨"a", FileType.regular⟩, rfl, rfl⟩
    · exact ⟨⟨"c", FileType.directory⟩, rfl, rfl⟩
    · exact ⟨⟨"s", FileType.regular⟩, rfl, rfl⟩

/-- C2: for the rom/cores category in local mode (indexed, with subdir
index), a request whose stripped relative path equals `/.index-dirs`
returns an in-memory stream containing exactly the names of the
immediate children of the category root that are directories (after
resolving symbolic links), one name per line, newline-terminated, in
enumeration order; regular files at the root are excluded. -/
theorem open_indexDirs_lists_directories
    (filesystem : fileSystem) (host : Host) (name0 : String)
    (entries : List FileInfo)
    (hIdx : filesystem.Indexed = true)
    (hSub : filesystem.SubDirs = true)
    (hname : name0.drop (filesystem.Root.length - 1) = "/.index-dirs")
    (hread : host.dirRead "." = Except.ok entries)
    (hres : ∀ info ∈ entries, ∃ rinfo,
      resolveEntry host [filesystem.Source] info = Except.ok rinfo ∧
        rinfo.name = info.name) :
    filesystem.Open host name0 =
      Except.ok (OpenedFile.inMemory (newInMemoryFile
        (joinLines (namesOfType host [filesystem.Source] FileType.directory entries))
        ".index-dirs")) := by
  rw [Open_indexDirs_branch filesystem host name0 hIdx hSub hname]
  simp only [hread,
    synthListing_ok host [filesystem.Source] FileInfo.IsDir entries hres,
    namesKept_isDir]

/-- C2 witness: the cores category over `/roms` answering
`/cores/.index-dirs` when `/roms` holds directories `snes`, `genesis`,
a regular file `f` and a symlink `ln` to a directory: the listing is
`snes`, `genesis`, `ln`. -/
theorem open_indexDirs_lists_directories_witness :
    fsRomW.Open hostW2 "/cores/.index-dirs" =
      Except.ok (OpenedFile.inMemory (newInMemoryFile "snes\ngenesis\nln\n" ".index-dirs")) := by
  have h := open_indexDirs_lists_directories fsRomW hostW2 "/cores/.index-dirs"
    [⟨"snes", FileType.directory⟩, ⟨"genesis", FileType.directory⟩,
      ⟨"f", FileType.regular⟩, ⟨"ln", FileType.symlink⟩]
    rfl rfl rfl rfl ?_
  · exact h.trans (by rfl)
  · intro info hi
    fin_cases hi
    · exact ⟨⟨"snes", FileType.directory⟩, rfl, rfl⟩
    · exact ⟨⟨"genesis", FileType.directory⟩, rfl, rfl⟩
    · exact ⟨⟨"f", FileType.regular⟩, rfl, rfl⟩
    · exact ⟨⟨"ln", FileType.directory⟩, rfl, rfl⟩

/-- C3: while building a synthetic listing, a symlink is classified by
its resolved target's type: a symlink resolving to a directory is
listed by the root-level `.index-dirs` listing, and a symlink
resolving to a regular file is listed by the per-directory `.index`
listing; a dangling symlink (failed `os.Stat`) makes `Open` return an
error, and so does a failing directory open/read — no partial listing
is returned. -/
theorem symlink_classification_and_error_propagation :
    (∀ (filesystem : fileSystem) (host : Host) (name0 : String)
        (entries : List FileInfo) (e : FileInfo),
      filesystem.Indexed = true → filesystem.SubDirs = true →
      name0.drop (filesystem.Root.length - 1) = "/.index-dirs" →
      host.dirRead "." = Except.ok entries →
      (∀ info ∈ entries, ∃ rinfo,
        resolveEntry host [filesystem.Source] info = Except.ok rinfo ∧
          rinfo.name = info.name) →
      e ∈ entries → e.type = FileType.symlink →
      resolvedType host [filesystem.Source] e = some FileType.directory →
      ∃ f : inMemoryFile,
        filesystem.Open host name0 = Except.ok (OpenedFile.inMemory f) ∧
        e.name ∈ namesOfType host [filesystem.Source] FileType.directory entries ∧
        f.content =
          joinLines (namesOfType host [filesystem.Source] FileType.directory entries)) ∧
    (∀ (filesystem : fileSystem) (host : Host) (name0 dir : String)
        (entries : List FileInfo) (e : FileInfo),
      filesystem.Indexed = true →
      pathSplit (name0.drop (filesystem.Root.length - 1)) = (dir, ".index") →
      host.dirRead dir = Except.ok entries →
      (∀ info ∈ entries, ∃ rinfo,
        resolveEntry host [filesystem.Source, dir] info = Except.ok rinfo ∧
          rinfo.name = info.name) →
      e ∈ entries → e.type = FileType.symlink →
      resolvedType host [filesystem.Source, dir] e = some FileType.regular →
      ∃ f : inMemoryFile,
        filesystem.Open host name0 = Except.ok (OpenedFile.inMemory f) ∧
        e.name ∈ namesOfType host [filesystem.Source, dir] FileType.regular entries ∧
        f.content =
          joinLines (namesOfType host [filesystem.Source, dir] FileType.regular entries)) ∧
    (∀ (filesystem : fileSystem) (host : Host) (name0 : String)
        (entries : List FileInfo) (e : FileInfo),
      filesystem.Indexed = true → filesystem.SubDirs = true →
      name0.drop (filesystem.Root.length - 1) = "/.index-dirs" →
      host.dirRead "." = Except.ok entries →
      e ∈ entries →
      (∃ msg, resolveEntry host [filesystem.Source] e = Except.error msg) →
      ∃ msg, filesystem.Open host name0 = Except.error msg) ∧
    (∀ (filesystem : fileSystem) (host : Host) (name0 dir : String)
        (entries : List FileInfo) (e : FileInfo),
      filesystem.Indexed = true →
      pathSplit (name0.drop (filesystem.Root.length - 1)) = (dir, ".index") →
      host.dirRead dir = Except.ok entries →
      e ∈ entries →
      (∃ msg, resolveEntry host [filesystem.Source, dir] e = Except.error msg) →
      ∃ msg, filesystem.Open host name0 = Except.error msg) ∧
    (∀ (filesystem : fileSystem) (host : Host) (name0 : String),
      filesystem.Indexed = true → filesystem.SubDirs = true →
      name0.drop (filesystem.Root.length - 1) = "/.index-dirs" →
      (∃ msg, host.dirRead "." = Except.error msg) →
      ∃ msg, filesystem.Open host name0 = Except.error msg) ∧
    (∀ (filesystem : fileSystem) (host : Host) (name0 dir : String),
      filesystem.Indexed = true →
      pathSplit (name0.drop (filesystem.Root.length - 1)) = (dir, ".index") →
      (∃ msg, host.dirRead dir = Except.error msg) →
      ∃ msg, filesystem.Open host name0 = Except.error msg) := by
  refine ⟨?dirOk, ?fileOk, ?dirDangling, ?fileDangling, ?dirUnreadable, ?fileUnreadable⟩
  case dirOk =>
    intro filesystem host name0 entries e hIdx hSub hname hread hres he hsym hrt
    refine ⟨newInMemoryFile
      (joinLines (namesOfType host [filesystem.Source] FileType.directory entries))
      ".index-dirs", ?_, ?_, rfl⟩
    · rw [Open_indexDirs_branch filesystem host name0 hIdx hSub hname]
      simp only [hread,
        synthListing_ok host [filesystem.Source] FileInfo.IsDir entries hres,
        namesKept_isDir]
    · exact List.mem_filterMap.mpr ⟨e, he, by simp [hrt]⟩
  case fileOk =>
    intro filesystem host name0 dir entries e hIdx hsplit hread hres he hsym hrt
    refine ⟨newInMemoryFile
      (joinLines (namesOfType host [filesystem.Source, dir] FileType.regular entries))
      ".index", ?_, ?_, rfl⟩
    · rw [Open_index_branch filesystem host name0 dir hIdx hsplit]
      simp only [hread,
        synthListing_ok host [filesystem.Source, dir] FileInfo.IsRegular entries hres,
        namesKept_isRegular]
    · exact List.mem_filterMap.mpr ⟨e, he, by simp [hrt]⟩
  case dirDangling =>
    intro filesystem host name0 entries e hIdx hSub hname hread he herr
    obtain ⟨msg, hlist⟩ := synthListing_error host [filesystem.Source]
      FileInfo.IsDir entries ⟨e, he, herr⟩
    refine ⟨msg, ?_⟩
    rw [Open_indexDirs_branch filesystem host name0 hIdx hSub hname]
    simp only [hread, hlist]
  case fileDangling =>
    intro filesystem host name0 dir entries e hIdx hsplit hread he herr
    obtain ⟨msg, hlist⟩ := synthListing_error host [filesystem.Source, dir]
      FileInfo.IsRegular entries ⟨e, he, herr⟩
    refine ⟨msg, ?_⟩
    rw [Open_index_branch filesystem host name0 dir hIdx hsplit]
    simp only [hread, hlist]
  case dirUnreadable =>
    intro filesystem host name0 hIdx hSub hname herr
    obtain ⟨msg, hmsg⟩ := herr
    refine ⟨msg, ?_⟩
    rw [Open_indexDirs_branch filesystem host name0 hIdx hSub hname]
    simp only [hmsg]
  case fileUnreadable =>
    intro filesystem host name0 dir hIdx hsplit herr
    obtain ⟨msg, hmsg⟩ := herr
    refine ⟨msg, ?_⟩
    rw [Open_index_branch filesystem host name0 dir hIdx hsplit]
    simp only [hmsg]

/-- C3 witness: the six parts instantiated on concrete hosts — the
symlink `ln` to a directory is listed by `/cores/.index-dirs`, the
symlink `s` to a regular file is listed by `/system/.index`, the
dangling symlink `dang` makes both listing requests fail, and an
unreadable directory makes both listing requests fail. -/
theorem symlink_classification_and_error_propagation_witness :
    (∃ f : inMemoryFile,
      fsRomW.Open hostW2 "/cores/.index-dirs" = Except.ok (OpenedFile.inMemory f) ∧
      "ln" ∈ namesOfType hostW2 ["/roms"] FileType.directory entsW2 ∧
      f.content = joinLines (namesOfType hostW2 ["/roms"] FileType.directory entsW2)) ∧
    (∃ f : inMemoryFile,
      fsSystemW.Open hostW1 "/system/.index" = Except.ok (OpenedFile.inMemory f) ∧
      "s" ∈ namesOfType hostW1 ["/data", "/"] FileType.regular entsW1 ∧
      f.content = joinLines (namesOfType hostW1 ["/data", "/"] FileType.regular entsW1)) ∧
    (∃ msg, fsRomW.Open hostW3 "/cores/.index-dirs" = Except.error msg) ∧
    (∃ msg, fsSystemW.Open hostW3 "/system/.index" = Except.error msg) ∧
    (∃ msg, fsRomW.Open hostW4 "/cores/.index-dirs" = Except.error msg) ∧
    (∃ msg, fsSystemW.Open hostW4 "/system/.index" = Except.error msg) := by
  obtain ⟨dirOk, fileOk, dirDangling, fileDangling, dirUnreadable, fileUnreadable⟩ :=
    symlink_classification_and_error_propagation
  refine ⟨?_, ?_, ?_, ?_, ?_, ?_⟩
  · refine dirOk fsRomW hostW2 "/cores/.index-dirs" entsW2
      ⟨"ln", FileType.symlink⟩ rfl rfl rfl rfl ?_ (by decide) rfl rfl
    intro info hi
    simp only [entsW2, List.mem_cons, List.not_mem_nil, or_false] at hi
    rcases hi with h | h | h | h <;> subst h
    · exact ⟨⟨"snes", FileType.directory⟩, rfl, rfl⟩
    · exact ⟨⟨"genesis", FileType.directory⟩, rfl, rfl⟩
    · exact ⟨⟨"f", FileType.regular⟩, rfl, rfl⟩
    · exact ⟨⟨"ln", FileType.directory⟩, rfl, rfl⟩
  · refine fileOk fsSystemW hostW1 "/system/.index" "/" entsW1
      ⟨"s", FileType.symlink⟩ rfl rfl rfl ?_ (by decide) rfl rfl
    intro info hi
    simp only [entsW1, List.mem_cons, List.not_mem_nil, or_false] at hi
    rcases hi with h | h | h <;> subst h
    · exact ⟨⟨"a", FileType.regular⟩, rfl, rfl⟩
    · exact ⟨⟨"c", FileType.directory⟩, rfl, rfl⟩
    · exact ⟨⟨"s", FileType.regular⟩, rfl, rfl⟩
  · exact dirDangling fsRomW hostW3 "/cores/.index-dirs" [⟨"dang", FileType.symlink⟩]
      ⟨"dang", FileType.symlink⟩ rfl rfl rfl rfl (by decide)
      ⟨"stat: dangling symlink", rfl⟩
  · exact fileDangling fsSystemW hostW3 "/system/.index" "/" [⟨"dang", FileType.symlink⟩]
      ⟨"dang", FileType.symlink⟩ rfl rfl rfl (by decide)
      ⟨"stat: dangling symlink", rfl⟩
  · exact dirUnreadable fsRomW hostW4 "/cores/.index-dirs" rfl rfl rfl
      ⟨"open: permission denied", rfl⟩
  · exact fileUnreadable fsSystemW hostW4 "/system/.index" "/" rfl rfl
      ⟨"open: permission denied", rfl⟩

/-- C4: the director built by `newReverseProxy(proxyURL)` forwards any
inbound request with a rooted URL path to
`http://buildbot.libretro.com/assets/<inbound path>` — the outbound
URL path is `/assets` prepended to the inbound path (so
`/system/bios.bin` becomes `/assets/system/bios.bin`), and the
outbound Host header is forced to `buildbot.libretro.com`, overriding
the inbound client's Host. -/
theorem reverse_proxy_outbound_url_and_host (req : Request)
    (h : isRooted req.url.path = true) :
    ((newReverseProxyDirector proxyURL req).url.path = "/assets" ++ req.url.path) ∧
    ((newReverseProxyDirector proxyURL req).url.scheme = "http") ∧
    ((newReverseProxyDirector proxyURL req).url.host = "buildbot.libretro.com") ∧
    ((newReverseProxyDirector proxyURL req).host = "buildbot.libretro.com") := by
  obtain ⟨t, hp⟩ : ∃ t, req.url.path.data = '/' :: t := by
    unfold isRooted at h
    cases hpd : req.url.path.data with
    | nil => rw [hpd] at h; cases h
    | cons c tl =>
      rw [hpd] at h
      simp only [beq_iff_eq] at h
      exact ⟨tl, by rw [h]⟩
  refine ⟨?_, rfl, rfl, rfl⟩
  have ha : hasSlashSuffix "/assets/" = true := rfl
  show singleJoiningSlash "/assets/" req.url.path = "/assets" ++ req.url.path
  simp only [singleJoiningSlash, ha, h, Bool.and_self, if_true]
  apply string_data_ext
  show "/assets/".data ++ req.url.path.data.tail = "/assets".data ++ req.url.path.data
  rw [hp]
  rw [List.tail_cons, show "/assets/".data = "/assets".data ++ ['/'] by decide,
    List.append_assoc, List.singleton_append]

/-- C4 witness: a concrete inbound request `GET /system/bios.bin` from
a client with Host `localhost:5164` is rewritten to the outbound URL
`http://buildbot.libretro.com/assets/system/bios.bin` with Host header
`buildbot.libretro.com`. -/
theorem reverse_proxy_outbound_url_and_host_witness :
    ((newReverseProxyDirector proxyURL
        ⟨⟨"http", "localhost:5164", "/system/bios.bin"⟩, "localhost:5164"⟩).url.path =
      "/assets/system/bios.bin") ∧
    ((newReverseProxyDirector proxyURL
        ⟨⟨"http", "localhost:5164", "/system/bios.bin"⟩, "localhost:5164"⟩).url.host =
      "buildbot.libretro.com") ∧
    ((newReverseProxyDirector proxyURL
        ⟨⟨"http", "localhost:5164", "/system/bios.bin"⟩, "localhost:5164"⟩).host =
      "buildbot.libretro.com") := by
  have h := reverse_proxy_outbound_url_and_host
    ⟨⟨"http", "localhost:5164", "/system/bios.bin"⟩, "localhost:5164"⟩ rfl
  exact ⟨h.1.trans (by rfl), h.2.2.1, h.2.2.2⟩

/-- C5: `newServer` mounts, in registration order, the three fixed
prefixes `/frontend/`, `/system/`, `/cores/`; each prefix gets a
static file server over a `fileSystem` wrapping the configured local
path exactly when that path is non-empty (with the fixed policies
frontend = not indexed, system = indexed without subdir index, rom =
indexed with subdir index), and the reverse proxy to the fixed origin
otherwise; the listen address is carried unchanged. -/
theorem newServer_mount_policy (listen frontend system rom : String) :
    ((newServer listen frontend system rom).addr = listen) ∧
    (frontend = "" →
      (newServer listen frontend system rom).handler.lookup "/frontend/" =
        some (Handler.reverseProxy proxyURL)) ∧
    (frontend ≠ "" →
      (newServer listen frontend system rom).handler.lookup "/frontend/" =
        some (Handler.fileServer
          { Indexed := false, SubDirs := false, Root := "/frontend/", Source := frontend })) ∧
    (system = "" →
      (newServer listen frontend system rom).handler.lookup "/system/" =
        some (Handler.reverseProxy proxyURL)) ∧
    (system ≠ "" →
      (newServer listen frontend system rom).handler.lookup "/system/" =
        some (Handler.fileServer
          { Indexed := true, SubDirs := false, Root := "/system/", Source := system })) ∧
    (rom = "" →
      (newServer listen frontend system rom).handler.lookup "/cores/" =
        some (Handler.reverseProxy proxyURL)) ∧
    (rom ≠ "" →
      (newServer listen frontend system rom).handler.lookup "/cores/" =
        some (Handler.fileServer
          { Indexed := true, SubDirs := true, Root := "/cores/", Source := rom })) := by
  refine ⟨rfl, ?_, ?_, ?_, ?_, ?_, ?_⟩ <;> intro h <;>
    simp [newServer, List.lookup, h]

/-- C5 witness: `newServer ":5164" "" "/sys" "/roms"` proxies the
frontend category and serves system and rom locally with their fixed
policies. -/
theorem newServer_mount_policy_witness :
    ((newServer ":5164" "" "/sys" "/roms").addr = ":5164") ∧
    ((newServer ":5164" "" "/sys" "/roms").handler.lookup "/frontend/" =
      some (Handler.reverseProxy proxyURL)) ∧
    ((newServer ":5164" "" "/sys" "/roms").handler.lookup "/system/" =
      some (Handler.fileServer
        { Indexed := true, SubDirs := false, Root := "/system/", Source := "/sys" })) ∧
    ((newServer ":5164" "" "/sys" "/roms").handler.lookup "/cores/" =
      some (Handler.fileServer
        { Indexed := true, SubDirs := true, Root := "/cores/", Source := "/roms" })) := by
  have h := newServer_mount_policy ":5164" "" "/sys" "/roms"
  exact ⟨h.1, h.2.1 rfl, h.2.2.2.2.1 (by decide), h.2.2.2.2.2.2 (by decide)⟩

/-- C7: the serve command's `Run` returns nil (success) exactly when
`ListenAndServe` terminated with the clean-shutdown sentinel
`http.ErrServerClosed`; any other bind/serve error is returned
unchanged. -/
theorem serveRun_clean_shutdown_not_error (err : GoError) :
    (serveRunReturn err = none ↔ err = GoError.serverClosed) ∧
    (err ≠ GoError.serverClosed → serveRunReturn err = some err) := by
  constructor
  · constructor
    · intro h
      by_contra hne
      simp [serveRunReturn, hne] at h
    · intro h
      simp [serveRunReturn, h]
  · intro h
    simp [serveRunReturn, h]

/-- C7 witness: the sentinel maps to a nil return; a concrete bind
failure is returned unchanged. -/
theorem serveRun_clean_shutdown_not_error_witness :
    (serveRunReturn GoError.serverClosed = none) ∧
    (serveRunReturn (GoError.other "listen tcp: address already in use") =
      some (GoError.other "listen tcp: address already in use")) := by
  exact ⟨(serveRun_clean_shutdown_not_error GoError.serverClosed).1.mpr rfl,
    (serveRun_clean_shutdown_not_error
      (GoError.other "listen tcp: address already in use")).2 (by decide)⟩

/-- C8: contract of the synthetic in-memory listing file: `Close`
returns nil; `Readdir n` returns an empty `FileInfo` slice and nil
error for every `n`; `Stat` returns the file itself with nil error;
`Mode` is the fixed permission mode `0444`; `ModTime` is the clock
value at the moment of the call; `IsDir` is false; and after seeking to
the start the readable content is exactly the backing string — which,
for every in-memory file `Open` returns, is already readable in full
because the reader starts at offset 0. -/
theorem inMemoryFile_contract :
    (∀ (f : inMemoryFile) (count : Int) (now : Nat),
      f.Close = none ∧
      f.Readdir count = ([], none) ∧
      f.Stat = (f, none) ∧
      f.Mode = 0o444 ∧
      f.ModTime now = now ∧
      f.IsDir = false ∧
      (f.seekStart).readAll.1 = f.content) ∧
    (∀ (filesystem : fileSystem) (host : Host) (name0 : String) (f : inMemoryFile),
      filesystem.Open host name0 = Except.ok (OpenedFile.inMemory f) →
      f.readAll.1 = f.content) := by
  constructor
  · intro f count now
    refine ⟨rfl, rfl, rfl, rfl, rfl, rfl, ?_⟩
    show String.mk (f.content.data.drop 0) = f.content
    rw [List.drop_zero, string_mk_data]
  · intro filesystem host name0 f hopen
    have hpos := Open_inMemory_pos filesystem host name0 f hopen
    show String.mk (f.content.data.drop f.pos) = f.content
    rw [hpos, List.drop_zero, string_mk_data]

/-- C8 witness: the in-memory file answering `/system/.index` over
`hostW1` yields its full listing `a`, `s` when read. -/
theorem inMemoryFile_contract_witness :
    (fsSystemW.Open hostW1 "/system/.index" =
      Except.ok (OpenedFile.inMemory (newInMemoryFile "a\ns\n" ".index"))) ∧
    (newInMemoryFile "a\ns\n" ".index").readAll.1 = "a\ns\n" := by
  refine ⟨by rfl, ?_⟩
  exact inMemoryFile_contract.2 fsSystemW hostW1 "/system/.index"
    (newInMemoryFile "a\ns\n" ".index") (by rfl)

/-- C9: for a fixed directory state, the synthetic listing is a pure
function of the enumerated entries and their resolved types, with no
per-request hidden state: two hosts that enumerate the same entries
for the listed directory and agree on the stats of its symlink entries
produce identical `Open` results for the listing request (hence equal
listed-name sets), even if they differ on every other call. -/
theorem listing_pure_function_of_directory_state :
    (∀ (filesystem : fileSystem) (h1 h2 : Host) (name0 dir : String)
        (entries : List FileInfo),
      filesystem.Indexed = true →
      pathSplit (name0.drop (filesystem.Root.length - 1)) = (dir, ".index") →
      h1.dirRead dir = Except.ok entries →
      h2.dirRead dir = Except.ok entries →
      (∀ info ∈ entries, info.type = FileType.symlink →
        h1.stat (pathJoin ([filesystem.Source, dir] ++ [info.name])) =
          h2.stat (pathJoin ([filesystem.Source, dir] ++ [info.name]))) →
      filesystem.Open h1 name0 = filesystem.Open h2 name0) ∧
    (∀ (filesystem : fileSystem) (h1 h2 : Host) (name0 : String)
        (entries : List FileInfo),
      filesystem.Indexed = true →
      filesystem.SubDirs = true →
      name0.drop (filesystem.Root.length - 1) = "/.index-dirs" →
      h1.dirRead "." = Except.ok entries →
      h2.dirRead "." = Except.ok entries →
      (∀ info ∈ entries, info.type = FileType.symlink →
        h1.stat (pathJoin ([filesystem.Source] ++ [info.name])) =
          h2.stat (pathJoin ([filesystem.Source] ++ [info.name]))) →
      filesystem.Open h1 name0 = filesystem.Open h2 name0) := by
  constructor
  · intro filesystem h1 h2 name0 dir entries hIdx hsplit hr1 hr2 hstat
    rw [Open_index_branch filesystem h1 name0 dir hIdx hsplit,
      Open_index_branch filesystem h2 name0 dir hIdx hsplit, hr1, hr2]
    simp only
      [synthListing_congr h1 h2 [filesystem.Source, dir] FileInfo.IsRegular entries hstat]
  · intro filesystem h1 h2 name0 entries hIdx hSub hname hr1 hr2 hstat
    rw [Open_indexDirs_branch filesystem h1 name0 hIdx hSub hname,
      Open_indexDirs_branch filesystem h2 name0 hIdx hSub hname, hr1, hr2]
    simp only
      [synthListing_congr h1 h2 [filesystem.Source] FileInfo.IsDir entries hstat]

/-- C9 witness: `hostW1` and `hostW1b` agree on the enumeration of `/`
under `/data` and on the stat of the symlink `s`, but differ on other
directories and on ordinary opens; the `/system/.index` listing is
identical. -/
theorem listing_pure_function_of_directory_state_witness :
    fsSystemW.Open hostW1 "/system/.index" = fsSystemW.Open hostW1b "/system/.index" := by
  refine listing_pure_function_of_directory_state.1 fsSystemW hostW1 hostW1b
    "/system/.index" "/" entsW1 rfl rfl rfl rfl ?_
  intro info hi hsym
  fin_cases hi
  · cases hsym
  · cases hsym
  · rfl

/-- C10 (implicit): while building a synthetic listing, an entry whose
symlink-resolved type is neither the listed kind nor an error — a
socket, FIFO or device, or a directory in the `.index` case and a
regular file in the `.index-dirs` case — is silently omitted: it does
not appear among the listed names and does not make the request
fail. -/
theorem other_resolved_types_silently_omitted :
    (∀ (filesystem : fileSystem) (host : Host) (name0 dir : String)
        (entries : List FileInfo) (e : FileInfo),
      filesystem.Indexed = true →
      pathSplit (name0.drop (filesystem.Root.length - 1)) = (dir, ".index") →
      host.dirRead dir = Except.ok entries →
      (∀ info ∈ entries, ∃ rinfo,
        resolveEntry host [filesystem.Source, dir] info = Except.ok rinfo ∧
          rinfo.name = info.name) →
      (entries.map FileInfo.name).Nodup →
      e ∈ entries →
      resolvedType host [filesystem.Source, dir] e ≠ some FileType.regular →
      ∃ f : inMemoryFile,
        filesystem.Open host name0 = Except.ok (OpenedFile.inMemory f) ∧
        f.content =
          joinLines (namesOfType host [filesystem.Source, dir] FileType.regular entries) ∧
        e.name ∉ namesOfType host [filesystem.Source, dir] FileType.regular entries) ∧
    (∀ (filesystem : fileSystem) (host : Host) (name0 : String)
        (entries : List FileInfo) (e : FileInfo),
      filesystem.Indexed = true →
      filesystem.SubDirs = true →
      name0.drop (filesystem.Root.length - 1) = "/.index-dirs" →
      host.dirRead "." = Except.ok entries →
      (∀ info ∈ entries, ∃ rinfo,
        resolveEntry host [filesystem.Source] info = Except.ok rinfo ∧
          rinfo.name = info.name) →
      (entries.map FileInfo.name).Nodup →
      e ∈ entries →
      resolvedType host [filesystem.Source] e ≠ some FileType.directory →
      ∃ f : inMemoryFile,
        filesystem.Open host name0 = Except.ok (OpenedFile.inMemory f) ∧
        f.content =
          joinLines (namesOfType host [filesystem.Source] FileType.directory entries) ∧
        e.name ∉ namesOfType host [filesystem.Source] FileType.directory entries) := by
  constructor
  · intro filesystem host name0 dir entries e hIdx hsplit hread hres hnodup he hne
    refine ⟨newInMemoryFile
      (joinLines (namesOfType host [filesystem.Source, dir] FileType.regular entries))
      ".index", ?_, rfl, ?_⟩
    · rw [Open_index_branch filesystem host name0 dir hIdx hsplit]
      simp only [hread,
        synthListing_ok host [filesystem.Source, dir] FileInfo.IsRegular entries hres,
        namesKept_isRegular]
    · intro hmem
      obtain ⟨a, ha, hfa⟩ := List.mem_filterMap.mp hmem
      by_cases hcond : resolvedType host [filesystem.Source, dir] a = some FileType.regular
      · rw [if_pos hcond] at hfa
        have hae : a = e :=
          List.inj_on_of_nodup_map hnodup ha he (Option.some.inj hfa)
        rw [hae] at hcond
        exact hne hcond
      · rw [if_neg hcond] at hfa
        cases hfa
  · intro filesystem host name0 entries e hIdx hSub hname hread hres hnodup he hne
    refine ⟨newInMemoryFile
      (joinLines (namesOfType host [filesystem.Source] FileType.directory entries))
      ".index-dirs", ?_, rfl, ?_⟩
    · rw [Open_indexDirs_branch filesystem host name0 hIdx hSub hname]
      simp only [hread,
        synthListing_ok host [filesystem.Source] FileInfo.IsDir entries hres,
        namesKept_isDir]
    · intro hmem
      obtain ⟨a, ha, hfa⟩ := List.mem_filterMap.mp hmem
      by_cases hcond : resolvedType host [filesystem.Source] a = some FileType.directory
      · rw [if_pos hcond] at hfa
        have hae : a = e :=
          List.inj_on_of_nodup_map hnodup ha he (Option.some.inj hfa)
        rw [hae] at hcond
        exact hne hcond
      · rw [if_neg hcond] at hfa
        cases hfa

/-- C10 witness: the socket `sock` in `/data` is neither listed by
`/system/.index` nor an error, and the FIFO `fifo` in `/roms` is
neither listed by `/cores/.index-dirs` nor an error. -/
theorem other_resolved_types_silently_omitted_witness :
    (∃ f : inMemoryFile,
      fsSystemW.Open hostW5 "/system/.index" = Except.ok (OpenedFile.inMemory f) ∧
      f.content = joinLines (namesOfType hostW5 ["/data", "/"] FileType.regular entsW5a) ∧
      "sock" ∉ namesOfType hostW5 ["/data", "/"] FileType.regular entsW5a) ∧
    (∃ f : inMemoryFile,
      fsRomW.Open hostW5 "/cores/.index-dirs" = Except.ok (OpenedFile.inMemory f) ∧
      f.content = joinLines (namesOfType hostW5 ["/roms"] FileType.directory entsW5b) ∧
      "fifo" ∉ namesOfType hostW5 ["/roms"] FileType.directory entsW5b) := by
  constructor
  · refine other_resolved_types_silently_omitted.1 fsSystemW hostW5 "/system/.index" "/"
      entsW5a ⟨"sock", FileType.other⟩ rfl rfl rfl ?_ (by decide) (by decide) (by decide)
    intro info hi
    simp only [entsW5a, List.mem_cons, List.not_mem_nil, or_false] at hi
    rcases hi with h | h | h <;> subst h
    · exact ⟨⟨"sock", FileType.other⟩, rfl, rfl⟩
    · exact ⟨⟨"a", FileType.regular⟩, rfl, rfl⟩
    · exact ⟨⟨"d", FileType.directory⟩, rfl, rfl⟩
  · refine other_resolved_types_silently_omitted.2 fsRomW hostW5 "/cores/.index-dirs"
      entsW5b ⟨"fifo", FileType.other⟩ rfl rfl rfl rfl ?_ (by decide) (by decide) (by decide)
    intro info hi
    simp only [entsW5b, List.mem_cons, List.not_mem_nil, or_false] at hi
    rcases hi with h | h | h <;> subst h
    · exact ⟨⟨"fifo", FileType.other⟩, rfl, rfl⟩
    · exact ⟨⟨"sub", FileType.directory⟩, rfl, rfl⟩
    · exact ⟨⟨"f", FileType.regular⟩, rfl, rfl⟩

/-- C6 counterexample: with `/data/sub` containing a regular file
actually named `.index` (next to `b`), the listing answering
`/system/sub/.index` contains the line `.index` — the reserved
listing names are not excluded from the generated listing, refuting
the claim that they never appear. -/
theorem index_listing_reserved_name_counterexample :
    fsSystemW.Open hostC6 "/system/sub/.index" =
      Except.ok (OpenedFile.inMemory (newInMemoryFile ".index\nb\n" ".index")) ∧
    ".index" ∈ listingLines ".index\nb\n" := by
  exact ⟨by rfl, by decide⟩

/-- C6 (amended): the per-directory `.index` listing does not exclude
the reserved listing names: a regular file actually named `.index` or
`.index-dirs` present on disk in the listed directory appears among
the listed names like any other regular file (interception of the
reserved names happens only on the requested path, not on the listing
contents). -/
theorem index_listing_includes_reserved_names
    (filesystem : fileSystem) (host : Host) (name0 dir : String)
    (entries : List FileInfo) (e : FileInfo)
    (hIdx : filesystem.Indexed = true)
    (hsplit : pathSplit (name0.drop (filesystem.Root.length - 1)) = (dir, ".index"))
    (hread : host.dirRead dir = Except.ok entries)
    (hres : ∀ info ∈ entries, ∃ rinfo,
      resolveEntry host [filesystem.Source, dir] info = Except.ok rinfo ∧
        rinfo.name = info.name)
    (he : e ∈ entries)
    (_hname : e.name = ".index" ∨ e.name = ".index-dirs")
    (ht : resolvedType host [filesystem.Source, dir] e = some FileType.regular) :
    ∃ f : inMemoryFile,
      filesystem.Open host name0 = Except.ok (OpenedFile.inMemory f) ∧
      e.name ∈ namesOfType host [filesystem.Source, dir] FileType.regular entries ∧
      f.content =
        joinLines (namesOfType host [filesystem.Source, dir] FileType.regular entries) := by
  refine ⟨newInMemoryFile
    (joinLines (namesOfType host [filesystem.Source, dir] FileType.regular entries))
    ".index", ?_, ?_, rfl⟩
  · rw [Open_index_branch filesystem host name0 dir hIdx hsplit]
    simp only [hread,
      synthListing_ok host [filesystem.Source, dir] FileInfo.IsRegular entries hres,
      namesKept_isRegular]
  · exact List.mem_filterMap.mpr ⟨e, he, by simp [ht]⟩

/-- C6 (amended) witness: the on-disk regular file named `.index` in
`/data/sub` is listed by the `/system/sub/.index` request. -/
theorem index_listing_includes_reserved_names_witness :
    ∃ f : inMemoryFile,
      fsSystemW.Open hostC6 "/system/sub/.index" = Except.ok (OpenedFile.inMemory f) ∧
      ".index" ∈ namesOfType hostC6 ["/data", "/sub/"] FileType.regular entsC6 ∧
      f.content =
        joinLines (namesOfType hostC6 ["/data", "/sub/"] FileType.regular entsC6) := by
  refine index_listing_includes_reserved_names fsSystemW hostC6 "/system/sub/.index"
    "/sub/" entsC6 ⟨".index", FileType.regular⟩ rfl rfl rfl ?_ (by decide)
    (Or.inl rfl) rfl
  intro info hi
  simp only [entsC6, List.mem_cons, List.not_mem_nil, or_false] at hi
  rcases hi with h | h <;> subst h
  · exact ⟨⟨".index", FileType.regular⟩, rfl, rfl⟩
  · exact ⟨⟨"b", FileType.regular⟩, rfl, rfl⟩

end RetroArch
